import Mathlib

/-!
Verification development for the check-my-deps package resolution core.

The definitions below are shallow embeddings of the TypeScript source:
  - src/services/package-info-service.ts (current class, lines 31-460):
    version selectors, deprecation resolver, source classifier, update classifier
  - src/services/udpate/update-service.ts: update planner (prepareUpdates,
    getUpdatablePackages, getVersionPrefix, applyUpdates)
  - the historical update-service variant with the non-semver prefix guard
    (getVersionPrefix with URL / git / file: / npm: handling)
  - src/utils/helpers/process-in-chunks.ts (processInChunks)
  - src/utils/helpers/is-npm-registry-url.ts (isNpmRegistryUrl)

JavaScript semantics relevant to the source are modeled explicitly:
  - `Number(s)` on version components is modeled by `jsNumber` : `none` plays
    the role of NaN (it models NaN for non-numeric components; decimal digit
    strings and the empty string, which JS coerces to 0, are modeled exactly;
    exotic numeric literals such as hex or exponent notation do not occur in
    version strings and are mapped to `none`).
  - NaN propagation through `===`, `>` comparisons is modeled by `jsEq`/`jsGt`
    returning `false` whenever either side is `none`, exactly as NaN
    comparisons are always false in JS.
  - Truthiness of strings (`''` is falsy) is modeled by `truthyS`.
  - `Array.prototype.sort(cmp)` followed by `.pop()` is modeled by an
    insertion sort `jsSort` followed by `List.getLast?`; for consistent
    comparators (the only case in which ECMAScript pins down the result,
    and the case covered by the theorems below) any sorted permutation
    agrees with the engine's result.
  - `String.prototype.startsWith` / `includes` are modeled on the character
    lists (`jsStartsWith` / `jsIncludes`).
-/

namespace CheckMyDeps

/-- Recursion core for `jsSplit`, structural in a fuel argument so that the
kernel can evaluate it on concrete strings.  `acc` holds the current segment
segment in reverse. -/
def jsSplitAux (sep : List Char) : Nat → List Char → List Char → List (List Char)
  | _, acc, [] => [acc.reverse]
  | 0, acc, rest => [acc.reverse ++ rest]
  | Nat.succ fuel, acc, c :: cs =>
    if sep.isPrefixOf (c :: cs) then
      acc.reverse :: jsSplitAux sep fuel [] ((c :: cs).drop sep.length)
    else
      jsSplitAux sep fuel (c :: acc) cs

/-- Model of JS `s.split(sep)` for a non-empty separator, on character lists. -/
def jsSplit (s sep : String) : List String :=
  (jsSplitAux sep.data s.data.length [] s.data).map String.mk

/-- Model of JS `Number(component)`: `none` models NaN.  Matches JS exactly on
decimal-digit strings and on the empty string (which JS coerces to `0`). -/
def jsNumber (s : String) : Option Nat :=
  if s.data.isEmpty then some 0
  else if s.data.all Char.isDigit then
    some (s.data.foldl (fun n c => n * 10 + (c.toNat - Char.toNat '0')) 0)
  else none

/-- Model of `parts[i]` followed by `Number`: an out-of-range index yields
`undefined`, and `Number(undefined)` is NaN (`none`). -/
def jsComp (parts : List String) (i : Nat) : Option Nat :=
  match parts.get? i with
  | some s => jsNumber s
  | none => none

/-- The result of `const [major, minor, patch] = v.split('.').map(Number)`
when no component is NaN; `none` when any of the three is NaN. -/
def jsTriple (s : String) : Option (Nat × Nat × Nat) :=
  let parts := jsSplit s "."
  match jsComp parts 0, jsComp parts 1, jsComp parts 2 with
  | some a, some b, some c => some (a, b, c)
  | _, _, _ => none

/-- JS `===` between two possibly-NaN numbers: NaN compares false. -/
def jsEq : Option Nat → Option Nat → Bool
  | some a, some b => a == b
  | _, _ => false

/-- JS `>` between two possibly-NaN numbers: NaN compares false. -/
def jsGt : Option Nat → Option Nat → Bool
  | some a, some b => decide (b < a)
  | _, _ => false

/-- JS string truthiness as used in `if (!x) ...` guards: `undefined` and the
empty string are falsy. -/
def truthyS : Option String → Option String
  | some s => if s.data.isEmpty then none else some s
  | none => none

/-- Model of JS `s.startsWith(p)`. -/
def jsStartsWith (s p : String) : Bool :=
  p.data.isPrefixOf s.data

/-- Model of JS `s.includes(sub)`. -/
def jsIncludes (s sub : String) : Bool :=
  decide (sub.data <:+: s.data)

/-- The comparator
`(a, b) => { if (aMajor !== bMajor) return aMajor - bMajor; ... }`
from the version selectors, including its NaN behavior: a comparator call that
returns NaN is treated as `+0` by `Array.prototype.sort`. -/
def jsCompare (a b : String) : Int :=
  let pa := jsSplit a "."
  let pb := jsSplit b "."
  match jsComp pa 0, jsComp pb 0 with
  | some a0, some b0 =>
    if a0 ≠ b0 then (a0 : Int) - (b0 : Int)
    else
      match jsComp pa 1, jsComp pb 1 with
      | some a1, some b1 =>
        if a1 ≠ b1 then (a1 : Int) - (b1 : Int)
        else
          match jsComp pa 2, jsComp pb 2 with
          | some a2, some b2 => (a2 : Int) - (b2 : Int)
          | _, _ => 0
      | _, _ => 0
  | _, _ => 0

/-- `cmp(a, b) <= 0` for the semver comparator above. -/
def semverLe (a b : String) : Bool :=
  decide (jsCompare a b ≤ 0)

/-- One insertion step of the sort model. -/
def sortInsert (le : String → String → Bool) (x : String) : List String → List String
  | [] => [x]
  | y :: ys => if le x y then x :: y :: ys else y :: sortInsert le x ys

/-- Model of `Array.prototype.sort(cmp)` (insertion sort; see header note). -/
def jsSort (le : String → String → Bool) : List String → List String
  | [] => []
  | x :: xs => sortInsert le x (jsSort le xs)

/-- A version entry in the registry `versions` object.  `deprecated` is `none`
when the field is absent and `some b` when it is present with truthiness `b`
(the field may be a string or boolean in the registry; only its truthiness is
ever consulted).  Date/url metadata not consulted by the classified behavior
is omitted. -/
structure VersionEntry where
  deprecated : Option Bool
deriving Repr, DecidableEq

/-- `NpmRegistryPackageData`: the raw registry payload for one package, at the
granularity the service consults it.  `versions` is the `versions` object as
an association list in key order; `time` is the publish-time map;
`deprecated` is the package-level deprecation field (none = absent, some b =
present with truthiness b). -/
structure NpmRegistryPackageData where
  versions : List (String × VersionEntry)
  time : List (String × String)
  deprecated : Option Bool
deriving Repr, DecidableEq

/-- `filterProductionVersions` (package-info-service.ts lines 454-457):
`Object.keys(versions).filter((version) => !version.includes('-'))`. -/
def filterProductionVersions (versions : List (String × VersionEntry)) : List String :=
  (versions.map Prod.fst).filter (fun version => !(jsIncludes version "-"))

/-- `isVersionDeprecated` (package-info-service.ts lines 439-452).  Returns
`none` (undefined) when registry data is absent; otherwise checks only the
version's own entry in the `versions` object: present `deprecated` field →
its truthiness, otherwise `false`. -/
def isVersionDeprecated (npmRegistryData : Option NpmRegistryPackageData)
    (version : String) : Option Bool :=
  match npmRegistryData with
  | none => none
  | some r =>
    match r.versions.lookup version with
    | some versionData =>
      match versionData.deprecated with
      | some b => some b
      | none => some false
    | none => some false

/-- `setLatestVersion` (package-info-service.ts lines 312-348), restricted to
the version string it selects: sort the production versions by the semver
comparator and take the last (`.pop()`); the field is set only when the
popped value is truthy. -/
def setLatestVersion (npmRegistryData : Option NpmRegistryPackageData) : Option String :=
  match npmRegistryData with
  | none => none
  | some r =>
    truthyS ((jsSort semverLe (filterProductionVersions r.versions)).getLast?)

/-- `setLastPatchVersion` (package-info-service.ts lines 218-263), restricted
to the version string it selects: keep production versions with the installed
major and minor and a greater patch, sort, pop. -/
def setLastPatchVersion (versionInstalled : Option String)
    (npmRegistryData : Option NpmRegistryPackageData) : Option String :=
  match truthyS versionInstalled, npmRegistryData with
  | some installed, some r =>
    let productionVersions := filterProductionVersions r.versions
    let ic := jsSplit installed "."
    truthyS ((jsSort semverLe (productionVersions.filter (fun version =>
      let vc := jsSplit version "."
      jsEq (jsComp vc 0) (jsComp ic 0) && jsEq (jsComp vc 1) (jsComp ic 1) &&
        jsGt (jsComp vc 2) (jsComp ic 2)))).getLast?)
  | _, _ => none

/-- `setLastMinorVersion` (package-info-service.ts lines 265-310), restricted
to the version string it selects: keep production versions with the installed
major and a greater minor, sort, pop. -/
def setLastMinorVersion (versionInstalled : Option String)
    (npmRegistryData : Option NpmRegistryPackageData) : Option String :=
  match truthyS versionInstalled, npmRegistryData with
  | some installed, some r =>
    let productionVersions := filterProductionVersions r.versions
    let ic := jsSplit installed "."
    truthyS ((jsSort semverLe (productionVersions.filter (fun version =>
      let vc := jsSplit version "."
      jsEq (jsComp vc 0) (jsComp ic 0) && jsGt (jsComp vc 1) (jsComp ic 1)))).getLast?)
  | _, _ => none

/-- The `updateStatus` enum (`PackageStatus` in utils/types.ts). -/
inductive PackageStatus where
  | upToDate
  | major
  | minor
  | patch
deriving Repr, DecidableEq

/-- `NPM_REGISTRY_HOST` (utils/constants.ts; the constants module itself is
not part of the dump, but the value is pinned by the source:
update-service.ts tests `registrySource?.includes('registry.npmjs.org')` and
package-info-service.ts documents the format
the registry tarball URL format). -/
def NPM_REGISTRY_HOST : String := "registry.npmjs.org"

/-- Minimal model of WHATWG `new URL(s)`, returning (scheme, host, pathname):
`none` models the constructor throwing.  The scheme is validated
(letter followed by letters/digits/`+`/`-`/`.`); with an authority (`//`)
the host runs to the first `/`, `?` or `#` and must be non-empty, and an
empty path reads as `/`; without an authority the host is empty and the
opaque path is the pathname.  Normalisations (lowercasing, userinfo, special
scheme slash-tolerance) that the classified inputs never exercise are not
modeled. -/
def urlParse (s : String) : Option (String × String × String) :=
  match jsSplit s ":" with
  | scheme :: _ :: _ =>
    if scheme.data ≠ [] ∧ (scheme.data.headD 'a').isAlpha ∧
        scheme.data.all (fun c => c.isAlphanum || c == '+' || c == '-' || c == '.') then
      let rest := String.mk (s.data.drop (scheme.data.length + 1))
      if jsStartsWith rest "//" then
        let afterSlashes := rest.data.drop 2
        let hostPort := afterSlashes.takeWhile (fun c => !(c == '/' || c == '?' || c == '#'))
        if hostPort.isEmpty then none
        else
          let rem := afterSlashes.drop hostPort.length
          let pathname := rem.takeWhile (fun c => !(c == '?' || c == '#'))
          some (scheme, String.mk hostPort,
            String.mk (if pathname.isEmpty then ['/'] else pathname))
      else
        some (scheme, "", String.mk (rest.data.takeWhile (fun c => !(c == '?' || c == '#'))))
    else none
  | _ => none

/-- `isNpmRegistryUrl` (utils/helpers/is-npm-registry-url.ts): parse as a URL
and compare the host with the npm registry host; any parse failure (or a
missing / falsy argument) yields `false`. -/
def isNpmRegistryUrl (url : Option String) : Bool :=
  match truthyS url with
  | none => false
  | some u =>
    match urlParse u with
    | some (_, host, _) => host == NPM_REGISTRY_HOST
    | none => false

/-- `setRegistrySource` (package-info-service.ts lines 350-411): the chain of
source-classification branches.  The surrounding `try`/`catch` falls back to
the raw resolved string; in this model the only modeled failure is `new URL`
throwing, which is handled inline exactly where the source can throw. -/
def setRegistrySource (resolved : Option String) : Option String :=
  match truthyS resolved with
  | none => none
  | some resolvedUrl =>
    if isNpmRegistryUrl (some resolvedUrl) then
      some ((jsSplit resolvedUrl "/-/").headD resolvedUrl)
    else if jsStartsWith resolvedUrl "https://" || jsStartsWith resolvedUrl "http://" then
      if jsIncludes resolvedUrl "github.com" || jsIncludes resolvedUrl "gitlab.com" ||
          jsIncludes resolvedUrl "bitbucket.org" then
        some ((jsSplit resolvedUrl "#").headD resolvedUrl)
      else
        match urlParse resolvedUrl with
        | some (scheme, host, pathname) =>
          let pathParts := jsSplit pathname "/-/"
          if pathParts.length > 1 then
            some (scheme ++ "://" ++ host ++ pathParts.headD "")
          else
            some resolvedUrl
        | none => some resolvedUrl
    else if jsStartsWith resolvedUrl "git+" then
      some ((jsSplit (String.mk (resolvedUrl.data.drop 4)) "#").headD "")
    else if jsStartsWith resolvedUrl "file:" then
      some resolvedUrl
    else if jsStartsWith resolvedUrl "npm:" then
      some ("https://" ++ NPM_REGISTRY_HOST ++ "/" ++
        (jsSplit (String.mk (resolvedUrl.data.drop 4)) "@").headD "")
    else
      some resolvedUrl

/-- `setPackageStatus` (package-info-service.ts lines 413-437): guard on the
truthiness of both version strings, then the `===` cascade on the three
components (with NaN semantics). -/
def setPackageStatus (versionInstalled versionLast : Option String) :
    Option PackageStatus :=
  match truthyS versionInstalled, truthyS versionLast with
  | some installed, some latest =>
    let ic := jsSplit installed "."
    let lc := jsSplit latest "."
    if jsEq (jsComp ic 0) (jsComp lc 0) && jsEq (jsComp ic 1) (jsComp lc 1) &&
        jsEq (jsComp ic 2) (jsComp lc 2) then
      some PackageStatus.upToDate
    else if jsEq (jsComp ic 0) (jsComp lc 0) && jsEq (jsComp ic 1) (jsComp lc 1) then
      some PackageStatus.patch
    else if jsEq (jsComp ic 0) (jsComp lc 0) then
      some PackageStatus.minor
    else
      some PackageStatus.major
  | _, _ => none

/-- `NpmListDepItem` (utils/types.ts): one lockfile-equivalent entry. -/
structure NpmListDepItem where
  version : String
  resolved : String
deriving Repr, DecidableEq

/-- `setInstalledVersion` (package-info-service.ts lines 200-216), restricted
to the version string: `this.npmListDepItem?.version || ''`, set only when
truthy. -/
def setInstalledVersion (npmListDepItem : Option NpmListDepItem) : Option String :=
  truthyS (npmListDepItem.map NpmListDepItem.version)

/-- The version-string content of a `PackageInfoService` after its
constructor ran (the fields the claims are about). -/
structure PackageInfo where
  versionInstalled : Option String
  versionLastPatch : Option String
  versionLastMinor : Option String
  versionLast : Option String
  registrySource : Option String
  updateStatus : Option PackageStatus
deriving Repr, DecidableEq

/-- The `PackageInfoService` constructor (package-info-service.ts lines
56-87): runs the setters in order; each is a pure function of the inputs. -/
def mkPackageInfo (npmListDepItem : Option NpmListDepItem)
    (npmRegistryData : Option NpmRegistryPackageData) : PackageInfo :=
  let versionInstalled := setInstalledVersion npmListDepItem
  { versionInstalled := versionInstalled
    versionLastPatch := setLastPatchVersion versionInstalled npmRegistryData
    versionLastMinor := setLastMinorVersion versionInstalled npmRegistryData
    versionLast := setLatestVersion npmRegistryData
    registrySource := setRegistrySource (npmListDepItem.map NpmListDepItem.resolved)
    updateStatus := setPackageStatus versionInstalled (setLatestVersion npmRegistryData) }

/-- `PackageVersionSpec` (utils/types.ts), at the granularity `getInfo` and
the planner consult it: the version string and the deprecation flag
(date/url enrichment fields are not consulted by any classified behavior). -/
structure PackageVersionSpec where
  version : String
  deprecated : Option Bool
deriving Repr, DecidableEq

/-- `PackageSpec` (utils/types.ts, as emitted by the current `getInfo`). -/
structure PackageSpec where
  packageName : String
  dependencyType : String
  versionRequired : String
  versionInstalled : Option PackageVersionSpec
  versionLastPatch : Option PackageVersionSpec
  versionLastMinor : Option PackageVersionSpec
  versionLast : Option PackageVersionSpec
  registrySource : Option String
  updateStatus : Option PackageStatus
deriving Repr, DecidableEq

/-- The field content of a `PackageInfoService` as consumed by `getInfo`. -/
structure PackageInfoState where
  packageName : String
  dependencyType : String
  versionRequired : String
  versionInstalled : Option PackageVersionSpec
  versionLastPatch : Option PackageVersionSpec
  versionLastMinor : Option PackageVersionSpec
  versionLast : Option PackageVersionSpec
  registrySource : Option String
  updateStatus : Option PackageStatus
deriving Repr, DecidableEq

/-- `getInfo` (package-info-service.ts lines 101-137): serialize the record,
including `versionLast` only when the three `isSame...` truthiness checks all
fail. -/
def getInfo (st : PackageInfoState) : PackageSpec :=
  let isSameVersion : Bool :=
    match st.versionInstalled, st.versionLast with
    | some i, some l => !i.version.data.isEmpty && !l.version.data.isEmpty &&
        i.version == l.version
    | _, _ => false
  let isLastMinorSameAsLast : Bool :=
    match st.versionLastMinor, st.versionLast with
    | some m, some l => !m.version.data.isEmpty && !l.version.data.isEmpty &&
        m.version == l.version
    | _, _ => false
  let isLastPatchSameAsLast : Bool :=
    match st.versionLastPatch, st.versionLast with
    | some p, some l => !p.version.data.isEmpty && !l.version.data.isEmpty &&
        p.version == l.version
    | _, _ => false
  { packageName := st.packageName
    dependencyType := st.dependencyType
    versionRequired := st.versionRequired
    versionInstalled := st.versionInstalled
    versionLastPatch := st.versionLastPatch
    versionLastMinor := st.versionLastMinor
    versionLast :=
      if !isSameVersion && !isLastMinorSameAsLast && !isLastPatchSameAsLast then
        st.versionLast
      else none
    registrySource := st.registrySource
    updateStatus := st.updateStatus }

/-- `UpdateLevel` (utils/types.ts). -/
inductive UpdateLevel where
  | latest
  | minor
  | patch
deriving Repr, DecidableEq

/-- `PackageUpdateInfo` (utils/types.ts, as pushed by the current
`prepareUpdates`). -/
structure PackageUpdateInfo where
  packageName : String
  dependencyType : String
  currentVersion : String
  newVersion : String
  updateType : PackageStatus
deriving Repr, DecidableEq

/-- JS `a || b` on two possibly-undefined strings: the left value when it is
truthy, otherwise the right value. -/
def jsOrS (a b : Option String) : Option String :=
  match truthyS a with
  | some v => some v
  | none => b

namespace UpdateService

/-- `getVersionPrefix` (services/udpate/update-service.ts lines 214-224):
keep a leading `^` or `~`, otherwise no prefix. -/
def getVersionPrefix (versionRequired : String) : String :=
  if jsStartsWith versionRequired "^" || jsStartsWith versionRequired "~" then
    String.mk (versionRequired.data.take 1)
  else ""

/-- `getUpdatablePackages` (services/udpate/update-service.ts lines 179-212):
keep records with an installed version and an npm-registry source. -/
def getUpdatablePackages (packageInfoList : List PackageSpec) : List PackageSpec :=
  packageInfoList.filter (fun packageSpec =>
    packageSpec.versionInstalled.isSome &&
      (match truthyS packageSpec.registrySource with
       | some src => isNpmRegistryUrl (some src)
       | none => false))

/-- `prepareUpdates` (services/udpate/update-service.ts lines 47-93): for
each updatable record, pick the target version for the level (with the `||`
fallback chains), skip when it is falsy, and emit the prefixed new version. -/
def prepareUpdates (updateLevel : UpdateLevel) (packageInfoList : List PackageSpec) :
    List PackageUpdateInfo :=
  (getUpdatablePackages packageInfoList).filterMap (fun packageInfo =>
    let targetVersion : Option String :=
      match updateLevel with
      | UpdateLevel.latest =>
        jsOrS (packageInfo.versionLast.map PackageVersionSpec.version)
          (jsOrS (packageInfo.versionLastMinor.map PackageVersionSpec.version)
            (packageInfo.versionLastPatch.map PackageVersionSpec.version))
      | UpdateLevel.minor =>
        jsOrS (packageInfo.versionLastMinor.map PackageVersionSpec.version)
          (packageInfo.versionLastPatch.map PackageVersionSpec.version)
      | UpdateLevel.patch =>
        truthyS (packageInfo.versionLastPatch.map PackageVersionSpec.version)
    match truthyS targetVersion with
    | none => none
    | some tv =>
      some { packageName := packageInfo.packageName
             dependencyType := packageInfo.dependencyType
             currentVersion := packageInfo.versionRequired
             newVersion := getVersionPrefix packageInfo.versionRequired ++ tv
             updateType := packageInfo.updateStatus.getD PackageStatus.patch })

/-- The manifest (package.json) at the granularity `applyUpdates` touches:
dependency-type groups mapping package names to version strings. -/
structure ManifestFile where
  dependencyGroups : List (String × List (String × String))
deriving Repr, DecidableEq

/-- Manifest-file events observable by `applyUpdates`. -/
inductive FsEvent where
  | read
  | write
deriving Repr, DecidableEq

/-- `deps[packageName] = newVersion`: overwrite the entry, adding it when
absent. -/
def setDepInGroup (deps : List (String × String)) (name ver : String) :
    List (String × String) :=
  if (deps.lookup name).isSome then
    deps.map (fun d => if d.1 == name then (d.1, ver) else d)
  else
    deps ++ [(name, ver)]

/-- One iteration of the `applyUpdates` loop body on the in-memory manifest:
returns the new manifest and whether `updatedCount` was incremented. -/
def applyOneUpdate (packageJson : ManifestFile) (update : PackageUpdateInfo) :
    ManifestFile × Bool :=
  match packageJson.dependencyGroups.lookup update.dependencyType with
  | some deps =>
    if (deps.lookup update.packageName) ≠ some update.newVersion then
      (⟨packageJson.dependencyGroups.map (fun g =>
          if g.1 == update.dependencyType then
            (g.1, setDepInGroup g.2 update.packageName update.newVersion)
          else g)⟩, true)
    else (packageJson, false)
  | none => (packageJson, false)

/-- `applyUpdates` (services/udpate/update-service.ts lines 101-149), with
the file system explicit: `file` is the manifest on disk (`none` models an
unreadable or invalid-JSON manifest, whose read throws into the `catch`),
and the event list records the manifest reads/writes performed.  Returns
(count, manifest after, events). -/
def applyUpdates (updates : List PackageUpdateInfo) (dryRun : Bool)
    (file : Option ManifestFile) : Nat × Option ManifestFile × List FsEvent :=
  if dryRun then
    (updates.length, file, [])
  else
    match file with
    | none => (0, none, [FsEvent.read])
    | some packageJson =>
      let res := updates.foldl
        (fun acc update =>
          let step := applyOneUpdate acc.1 update
          (step.1, acc.2 + (if step.2 then 1 else 0)))
        (packageJson, 0)
      if res.2 > 0 then
        (res.2, some res.1, [FsEvent.read, FsEvent.write])
      else
        (res.2, some packageJson, [FsEvent.read])

end UpdateService

namespace UpdateServiceHist

/-- `getVersionPrefix` from the historical update-service variant (the one
cited for C7): non-semver specs (URLs, git, `file:`, `npm:`, anything with a
`:` or `/`) get no prefix; otherwise a leading `^`/`~` is kept. -/
def getVersionPrefix (versionRequired : String) : String :=
  if jsStartsWith versionRequired "http" || jsStartsWith versionRequired "git" ||
      jsStartsWith versionRequired "file:" || jsStartsWith versionRequired "npm:" ||
      jsIncludes versionRequired ":" || jsIncludes versionRequired "/" then
    ""
  else if jsStartsWith versionRequired "^" || jsStartsWith versionRequired "~" then
    String.mk (versionRequired.data.take 1)
  else ""

/-- `` `${prefix}${targetVersion}` `` in that variant's `prepareUpdates`. -/
def newVersionString (versionRequired targetVersion : String) : String :=
  getVersionPrefix versionRequired ++ targetVersion

end UpdateServiceHist

/-- The chunk decomposition performed by the `for (let i = 0; i < data.length;
i += limit)` loop of `processInChunks`: consecutive `slice(i, i + limit)`
windows.  The source loop does not terminate for `limit = 0`; that case is
mapped to `[]` and excluded by the hypotheses of the theorems. -/
def chunksOf {α : Type} : Nat → List α → List (List α)
  | _, [] => []
  | 0, _ :: _ => []
  | Nat.succ n, x :: xs =>
    (x :: xs).take (Nat.succ n) :: chunksOf (Nat.succ n) ((x :: xs).drop (Nat.succ n))
termination_by _ l => l.length
decreasing_by
  simp only [List.drop_succ_cons, List.length_cons, List.length_drop]
  omega

/-- `processInChunks` (utils/helpers/process-in-chunks.ts lines 123-153) with
the asynchronous callback modeled as a pure function of (item, index): the
results array, written at `dataIndex` per completion, read off in index
order.  The chunks are issued sequentially (`await Promise.all` per chunk),
which the model reflects by computing chunk after chunk in order. -/
def processInChunks {α β : Type} (data : List α) (callback : α → Nat → β)
    (limit : Nat) : List β :=
  if data.isEmpty then []
  else
    ((chunksOf limit data.enum).map
      (fun chunk => chunk.map (fun p => callback p.2 p.1))).flatten

/-- Spec-side numeric component ordering on parsed (major, minor, patch)
triples: major first, then minor, then patch. -/
def lexTripleLe : Nat × Nat × Nat → Nat × Nat × Nat → Prop :=
  fun a b =>
    a.1 < b.1 ∨ (a.1 = b.1 ∧ (a.2.1 < b.2.1 ∨ (a.2.1 = b.2.1 ∧ a.2.2 ≤ b.2.2)))

/-- Spec-side update classifier (spec section 4.4) on parsed triples. -/
def classifyUpdate (installed latest : Nat × Nat × Nat) : PackageStatus :=
  if installed = latest then PackageStatus.upToDate
  else if installed.1 = latest.1 ∧ installed.2.1 = latest.2.1 then PackageStatus.patch
  else if installed.1 = latest.1 then PackageStatus.minor
  else PackageStatus.major

/-- Spec-side target-version rule (spec section 4.7 / claim C3):
latest → latest, falling back to lastMinor then lastPatch; minor → lastMinor,
falling back to lastPatch; patch → lastPatch only. -/
def targetVersionSpec (level : UpdateLevel) (p : PackageSpec) : Option String :=
  match level with
  | UpdateLevel.latest =>
    match p.versionLast with
    | some v => some v.version
    | none =>
      match p.versionLastMinor with
      | some v => some v.version
      | none => p.versionLastPatch.map PackageVersionSpec.version
  | UpdateLevel.minor =>
    match p.versionLastMinor with
    | some v => some v.version
    | none => p.versionLastPatch.map PackageVersionSpec.version
  | UpdateLevel.patch => p.versionLastPatch.map PackageVersionSpec.version

/-- C1 counterexample data: the package-level `deprecated` field is truthy,
and the (only) version entry carries no `deprecated` field of its own. -/
def regC1 : NpmRegistryPackageData :=
  { versions := [("1.0.0", { deprecated := none })]
    time := []
    deprecated := some true }

/-- C2 witness data: numeric ordering puts `1.10.0` above `1.9.0`
(lexicographically it would be below), and a prerelease key is present. -/
def regC2 : NpmRegistryPackageData :=
  { versions := [("1.9.0", { deprecated := none }), ("1.10.0", { deprecated := none }),
      ("2.0.0-beta.1", { deprecated := none })]
    time := []
    deprecated := none }

/-- C5 counterexample registry data. -/
def regC5 : NpmRegistryPackageData :=
  { versions := [("1.0.0", { deprecated := none })]
    time := []
    deprecated := none }

/-- C5 counterexample registry data for the last-minor part. -/
def regC5m : NpmRegistryPackageData :=
  { versions := [("1.3.0", { deprecated := none })]
    time := []
    deprecated := none }

/-- C5 dependency item whose installed version is entirely non-numeric. -/
def depC5 : NpmListDepItem := { version := "abc", resolved := "" }

/-- C5 dependency item whose installed version has a numeric major and minor
but a non-numeric patch component. -/
def depC5m : NpmListDepItem := { version := "1.2.x", resolved := "" }

/-- C3 witness record. -/
def pkgC3 : PackageSpec :=
  { packageName := "a"
    dependencyType := "dependencies"
    versionRequired := "^1.0.0"
    versionInstalled := some { version := "1.0.0", deprecated := some false }
    versionLastPatch := some { version := "1.0.9", deprecated := none }
    versionLastMinor := some { version := "1.2.0", deprecated := none }
    versionLast := none
    registrySource := some "https://registry.npmjs.org/a"
    updateStatus := some PackageStatus.minor }

/-- C8 witness state. -/
def stC8 : PackageInfoState :=
  { packageName := "a"
    dependencyType := "dependencies"
    versionRequired := "^1.0.0"
    versionInstalled := some { version := "1.0.0", deprecated := none }
    versionLastPatch := none
    versionLastMinor := some { version := "1.2.0", deprecated := none }
    versionLast := some { version := "2.0.0", deprecated := none }
    registrySource := none
    updateStatus := some PackageStatus.major }

/-! ## Helper lemmas -/

theorem jsEq_none_right (x : Option Nat) : jsEq x none = false := by
  cases x <;> rfl

theorem jsGt_none_right (x : Option Nat) : jsGt x none = false := by
  cases x <;> rfl

theorem truthyS_some_of_ne (s : String) (h : s.data ≠ []) :
    truthyS (some s) = some s := by
  simp only [truthyS, List.isEmpty_iff]
  exact if_neg h

theorem jsTriple_comp (s : String) (a b c : Nat) (h : jsTriple s = some (a, b, c)) :
    jsComp (jsSplit s ".") 0 = some a ∧ jsComp (jsSplit s ".") 1 = some b ∧
      jsComp (jsSplit s ".") 2 = some c := by
  unfold jsTriple at h
  cases h0 : jsComp (jsSplit s ".") 0 <;> cases h1 : jsComp (jsSplit s ".") 1 <;>
    cases h2 : jsComp (jsSplit s ".") 2 <;> simp only [h0, h1, h2] at h <;>
    simp_all

theorem data_ne_nil_of_jsTriple (s : String) (t : Nat × Nat × Nat)
    (h : jsTriple s = some t) : s.data ≠ [] := by
  intro hnil
  have hs : s = "" := String.ext hnil
  rw [hs] at h
  rw [show jsTriple "" = none from by decide] at h
  exact Option.noConfusion h

theorem truthyS_eq_some (o : Option String) (m : String) (h : truthyS o = some m) :
    o = some m := by
  cases o with
  | none => simp [truthyS] at h
  | some s =>
    by_cases hs : s.data.isEmpty
    · simp [truthyS, hs] at h
    · simp only [truthyS, hs, if_false] at h
      exact h

theorem truthyS_none : truthyS none = none := rfl

theorem truthyS_truthyS (o : Option String) : truthyS (truthyS o) = truthyS o := by
  cases o with
  | none => rfl
  | some s =>
    by_cases hs : s.data.isEmpty
    · simp [truthyS, hs]
    · simp [truthyS, hs]

theorem jsTriple_none_iff (s : String) :
    jsTriple s = none ↔ (jsComp (jsSplit s ".") 0 = none ∨
      jsComp (jsSplit s ".") 1 = none ∨ jsComp (jsSplit s ".") 2 = none) := by
  unfold jsTriple
  cases h0 : jsComp (jsSplit s ".") 0 <;> cases h1 : jsComp (jsSplit s ".") 1 <;>
    cases h2 : jsComp (jsSplit s ".") 2 <;> simp [h0, h1, h2]

theorem mem_sortInsert (le : String → String → Bool) (x a : String) (l : List String) :
    a ∈ sortInsert le x l ↔ a = x ∨ a ∈ l := by
  induction l with
  | nil => simp [sortInsert]
  | cons y ys ih =>
    simp only [sortInsert]
    split
    · simp [List.mem_cons]
    · simp only [List.mem_cons, ih]
      tauto

theorem sortInsert_ne_nil (le : String → String → Bool) (x : String) (l : List String) :
    sortInsert le x l ≠ [] := by
  cases l with
  | nil => simp [sortInsert]
  | cons y ys =>
    simp only [sortInsert]
    split <;> simp

theorem mem_jsSort (le : String → String → Bool) (a : String) (l : List String) :
    a ∈ jsSort le l ↔ a ∈ l := by
  induction l with
  | nil => simp [jsSort]
  | cons x xs ih => simp [jsSort, mem_sortInsert, ih]

theorem jsSort_eq_nil_iff (le : String → String → Bool) (l : List String) :
    jsSort le l = [] ↔ l = [] := by
  cases l with
  | nil => simp [jsSort]
  | cons x xs =>
    simp only [jsSort]
    constructor
    · intro h
      exact absurd h (sortInsert_ne_nil le x (jsSort le xs))
    · intro h
      exact List.noConfusion h

theorem pairwise_sortInsert (le : String → String → Bool) (P : String → Prop)
    (htot : ∀ a b, P a → P b → le a b = false → le b a = true)
    (htrans : ∀ a b c, P a → P b → P c → le a b = true → le b c = true → le a c = true)
    (x : String) (l : List String) (hx : P x) (hl : ∀ y ∈ l, P y)
    (h : l.Pairwise (fun a b => le a b = true)) :
    (sortInsert le x l).Pairwise (fun a b => le a b = true) := by
  induction l with
  | nil => simp [sortInsert]
  | cons y ys ih =>
    rw [List.pairwise_cons] at h
    obtain ⟨hy, hys⟩ := h
    simp only [sortInsert]
    split
    case isTrue hxy =>
      rw [List.pairwise_cons]
      refine ⟨?_, List.pairwise_cons.mpr ⟨hy, hys⟩⟩
      intro z hz
      rcases List.mem_cons.mp hz with rfl | hz'
      · exact hxy
      · exact htrans x y z hx (hl y (by simp)) (hl z (by simp [hz'])) hxy (hy z hz')
    case isFalse hxy =>
      rw [List.pairwise_cons]
      refine ⟨?_, ih (fun u hu => hl u (by simp [hu])) hys⟩
      intro z hz
      rcases (mem_sortInsert le x z ys).mp hz with rfl | hz'
      · have hfalse : le z y = false := by
          revert hxy
          cases le z y <;> simp
        exact htot z y hx (hl y (by simp)) hfalse
      · exact hy z hz'

theorem pairwise_jsSort (le : String → String → Bool) (P : String → Prop)
    (htot : ∀ a b, P a → P b → le a b = false → le b a = true)
    (htrans : ∀ a b c, P a → P b → P c → le a b = true → le b c = true → le a c = true)
    (l : List String) (hl : ∀ y ∈ l, P y) :
    (jsSort le l).Pairwise (fun a b => le a b = true) := by
  induction l with
  | nil => simp [jsSort]
  | cons x xs ih =>
    exact pairwise_sortInsert le P htot htrans x (jsSort le xs) (hl x (by simp))
      (fun y hy => hl y (by simp [(mem_jsSort le y xs).mp hy]))
      (ih (fun y hy => hl y (by simp [hy])))

theorem getLast?_max_of_pairwise {R : String → String → Prop} :
    ∀ (l : List String), l.Pairwise R → ∀ m, l.getLast? = some m →
      ∀ v ∈ l, v = m ∨ R v m := by
  intro l
  induction l with
  | nil =>
    intro _ m hm
    exact absurd hm (by simp)
  | cons x xs ih =>
    intro h m hm v hv
    cases xs with
    | nil =>
      rw [List.getLast?_singleton] at hm
      rcases List.mem_singleton.mp hv with rfl
      left
      exact (Option.some.injEq _ _ ▸ hm : v = m)
    | cons y ys =>
      rw [List.getLast?_cons_cons] at hm
      rw [List.pairwise_cons] at h
      obtain ⟨hx, hrest⟩ := h
      rcases List.mem_cons.mp hv with rfl | hv'
      · right
        exact hx m (List.mem_of_mem_getLast? hm)
      · exact ih hrest m hm v hv'

theorem lexTripleLe_refl (t : Nat × Nat × Nat) : lexTripleLe t t := by
  simp [lexTripleLe]

theorem lexTripleLe_total (t u : Nat × Nat × Nat) : lexTripleLe t u ∨ lexTripleLe u t := by
  obtain ⟨a, b, c⟩ := t
  obtain ⟨d, e, f⟩ := u
  simp only [lexTripleLe]
  omega

theorem lexTripleLe_trans (t u w : Nat × Nat × Nat) (h1 : lexTripleLe t u)
    (h2 : lexTripleLe u w) : lexTripleLe t w := by
  obtain ⟨a, b, c⟩ := t
  obtain ⟨d, e, f⟩ := u
  obtain ⟨g, i, j⟩ := w
  simp only [lexTripleLe] at h1 h2 ⊢
  omega

theorem semverLe_iff_lex (a b : String) (ta tb : Nat × Nat × Nat)
    (ha : jsTriple a = some ta) (hb : jsTriple b = some tb) :
    (semverLe a b = true ↔ lexTripleLe ta tb) := by
  obtain ⟨a0, a1, a2⟩ := ta
  obtain ⟨b0, b1, b2⟩ := tb
  obtain ⟨ha0, ha1, ha2⟩ := jsTriple_comp _ _ _ _ ha
  obtain ⟨hb0, hb1, hb2⟩ := jsTriple_comp _ _ _ _ hb
  simp only [semverLe, jsCompare, ha0, ha1, ha2, hb0, hb1, hb2, lexTripleLe,
    decide_eq_true_eq]
  by_cases h0 : a0 = b0 <;> by_cases h1 : a1 = b1 <;> simp [h0, h1] <;> omega

/-! ## C1: deprecation resolver and package-level deprecation -/

/-- C1 counterexample: with the package-level `deprecated` field truthy and a
version entry carrying no own `deprecated` field, `isVersionDeprecated`
reports `false` for that version — not `true` as the claim states. -/
theorem isVersionDeprecated_package_level_cex :
    regC1.deprecated = some true ∧ isVersionDeprecated (some regC1) "1.0.0" = some false :=
  ⟨rfl, by decide⟩

/-- C1 (amended): `isVersionDeprecated` never consults the package-level
`deprecated` field — its result is invariant under changing that field — and
it reports `true` exactly when the queried version's own entry carries a
truthy `deprecated` field. -/
theorem isVersionDeprecated_version_entry_only (r : NpmRegistryPackageData)
    (v : String) (d : Option Bool) :
    isVersionDeprecated (some { r with deprecated := d }) v = isVersionDeprecated (some r) v ∧
    (isVersionDeprecated (some r) v = some true ↔
      ∃ e, r.versions.lookup v = some e ∧ e.deprecated = some true) := by
  constructor
  · rfl
  · cases hl : r.versions.lookup v with
    | none => simp [isVersionDeprecated, hl]
    | some e =>
      cases hd : e.deprecated with
      | none => simp [isVersionDeprecated, hl, hd]
      | some b => cases b <;> simp [isVersionDeprecated, hl, hd]

/-! ## C2: latest overall version -/

/-- C2: over registry data whose production (no `-`) version keys parse as
numeric triples, the selected latest version is absent exactly when there is
no production key; otherwise it is a production key (so never one containing
`-`) whose triple is the maximum of all production keys under component-wise
numeric (major, then minor, then patch) comparison. -/
theorem setLatestVersion_is_numeric_max (r : NpmRegistryPackageData)
    (hp : ∀ v ∈ filterProductionVersions r.versions, (jsTriple v).isSome) :
    (setLatestVersion (some r) = none ↔ filterProductionVersions r.versions = []) ∧
    (∀ m, setLatestVersion (some r) = some m →
      m ∈ filterProductionVersions r.versions ∧ jsIncludes m "-" = false ∧
      ∀ v ∈ filterProductionVersions r.versions, ∀ tv tm : Nat × Nat × Nat,
        jsTriple v = some tv → jsTriple m = some tm → lexTripleLe tv tm) := by
  have hdef : setLatestVersion (some r) =
      truthyS ((jsSort semverLe (filterProductionVersions r.versions)).getLast?) := rfl
  have htot : ∀ a b : String, (jsTriple a).isSome → (jsTriple b).isSome →
      semverLe a b = false → semverLe b a = true := by
    intro a b pa pb hab
    obtain ⟨ta, hta⟩ := Option.isSome_iff_exists.mp pa
    obtain ⟨tb, htb⟩ := Option.isSome_iff_exists.mp pb
    rcases lexTripleLe_total ta tb with h | h
    · exfalso
      have hh := (semverLe_iff_lex a b ta tb hta htb).mpr h
      rw [hab] at hh
      exact Bool.noConfusion hh
    · exact (semverLe_iff_lex b a tb ta htb hta).mpr h
  have htrans : ∀ a b c : String, (jsTriple a).isSome → (jsTriple b).isSome →
      (jsTriple c).isSome → semverLe a b = true → semverLe b c = true →
      semverLe a c = true := by
    intro a b c pa pb pc hab hbc
    obtain ⟨ta, hta⟩ := Option.isSome_iff_exists.mp pa
    obtain ⟨tb, htb⟩ := Option.isSome_iff_exists.mp pb
    obtain ⟨tc, htc⟩ := Option.isSome_iff_exists.mp pc
    exact (semverLe_iff_lex a c ta tc hta htc).mpr
      (lexTripleLe_trans ta tb tc ((semverLe_iff_lex a b ta tb hta htb).mp hab)
        ((semverLe_iff_lex b c tb tc htb htc).mp hbc))
  have hpw := pairwise_jsSort semverLe (fun v => (jsTriple v).isSome) htot htrans
    (filterProductionVersions r.versions) hp
  constructor
  · constructor
    · intro h
      by_contra hne
      have hsne : jsSort semverLe (filterProductionVersions r.versions) ≠ [] := by
        intro hh
        exact hne ((jsSort_eq_nil_iff _ _).mp hh)
      cases hgl : (jsSort semverLe (filterProductionVersions r.versions)).getLast? with
      | none => exact hsne (List.getLast?_eq_none_iff.mp hgl)
      | some m =>
        have hmem : m ∈ filterProductionVersions r.versions :=
          (mem_jsSort _ _ _).mp (List.mem_of_mem_getLast? hgl)
        obtain ⟨tm, htm⟩ := Option.isSome_iff_exists.mp (hp m hmem)
        rw [hdef, hgl, truthyS_some_of_ne m (data_ne_nil_of_jsTriple m tm htm)] at h
        exact Option.noConfusion h
    · intro h
      rw [hdef, h]
      rfl
  · intro m hm
    rw [hdef] at hm
    have hgl : (jsSort semverLe (filterProductionVersions r.versions)).getLast? = some m :=
      truthyS_eq_some _ _ hm
    have hmem : m ∈ filterProductionVersions r.versions :=
      (mem_jsSort _ _ _).mp (List.mem_of_mem_getLast? hgl)
    refine ⟨hmem, ?_, ?_⟩
    · have hmem' : m ∈ (r.versions.map Prod.fst).filter
          (fun version => !(jsIncludes version "-")) := hmem
      have hpred := (List.mem_filter.mp hmem').2
      simpa using hpred
    · intro v hv tv tm htv htm
      rcases getLast?_max_of_pairwise _ hpw m hgl v ((mem_jsSort _ _ _).mpr hv) with rfl | hle
      · have heq : tv = tm := by
          rw [htv] at htm
          exact Option.some.inj htm
        rw [heq]
        exact lexTripleLe_refl tm
      · exact (semverLe_iff_lex v m tv tm htv htm).mp hle

/-- C2 witness: numeric ordering selects `1.10.0` over `1.9.0`, and the
prerelease key `2.0.0-beta.1` is never selected. -/
theorem setLatestVersion_is_numeric_max_witness :
    (∀ v ∈ filterProductionVersions regC2.versions, (jsTriple v).isSome) ∧
      setLatestVersion (some regC2) = some "1.10.0" ∧
      ∀ m, setLatestVersion (some regC2) = some m →
        m ∈ filterProductionVersions regC2.versions :=
  ⟨by decide, by decide,
    fun m hm => ((setLatestVersion_is_numeric_max regC2 (by decide)).2 m hm).1⟩

/-! ## C5: selections for an unparseable installed version -/

/-- C5 counterexample: with an unparseable installed version, `lastPatch` and
`lastMinor` are indeed left undefined, but `latest` is still computed
(`some "1.0.0"`), contradicting "all three selections are skipped"; moreover
an installed version with numeric major/minor but non-numeric patch (also not
three numeric components) still gets a `lastMinor`. -/
theorem versionSelector_unparseable_cex :
    jsTriple "abc" = none ∧
      (mkPackageInfo (some depC5) (some regC5)).versionLastPatch = none ∧
      (mkPackageInfo (some depC5) (some regC5)).versionLastMinor = none ∧
      (mkPackageInfo (some depC5) (some regC5)).versionLast = some "1.0.0" ∧
      jsTriple "1.2.x" = none ∧
      (mkPackageInfo (some depC5m) (some regC5m)).versionLastMinor = some "1.3.0" :=
  ⟨by decide, by decide, by decide, by decide, by decide, by decide⟩

/-- C5 (amended): when the installed version does not parse as three numeric
components, `lastPatch` is left undefined (its filter compares against a NaN
component and matches nothing); `lastMinor` is left undefined whenever the
major or minor component is NaN (its filter only consults those two); and
`latest` does not depend on the lockfile item at all. -/
theorem versionSelector_unparseable_amended (dep : NpmListDepItem)
    (r : NpmRegistryPackageData) :
    (jsTriple dep.version = none →
      (mkPackageInfo (some dep) (some r)).versionLastPatch = none) ∧
    ((jsComp (jsSplit dep.version ".") 0 = none ∨ jsComp (jsSplit dep.version ".") 1 = none) →
      (mkPackageInfo (some dep) (some r)).versionLastMinor = none) ∧
    (mkPackageInfo (some dep) (some r)).versionLast = (mkPackageInfo none (some r)).versionLast := by
  have hset : setInstalledVersion (some dep) = truthyS (some dep.version) := rfl
  refine ⟨?_, ?_, rfl⟩
  · intro h
    show setLastPatchVersion (setInstalledVersion (some dep)) (some r) = none
    rw [hset]
    cases hti : truthyS (some dep.version) with
    | none =>
      simp only [setLastPatchVersion, truthyS_truthyS, hti, truthyS_none]
    | some iv =>
      have hiv : dep.version = iv := Option.some.inj (truthyS_eq_some _ _ hti)
      rw [hiv] at h
      have hivt : truthyS (some iv) = some iv := by
        have h2 := truthyS_truthyS (some dep.version)
        rw [hti] at h2
        exact h2
      simp only [setLastPatchVersion, truthyS_truthyS, hti, hivt]
      have hfil : (filterProductionVersions r.versions).filter (fun version =>
          jsEq (jsComp (jsSplit version ".") 0) (jsComp (jsSplit iv ".") 0) &&
            jsEq (jsComp (jsSplit version ".") 1) (jsComp (jsSplit iv ".") 1) &&
            jsGt (jsComp (jsSplit version ".") 2) (jsComp (jsSplit iv ".") 2)) = [] := by
        rw [List.filter_eq_nil_iff]
        intro v hv
        rcases (jsTriple_none_iff iv).mp h with h0 | h1 | h2
        · simp [h0, jsEq_none_right]
        · simp [h1, jsEq_none_right]
        · simp [h2, jsGt_none_right]
      rw [hfil]
      rfl
  · intro h
    show setLastMinorVersion (setInstalledVersion (some dep)) (some r) = none
    rw [hset]
    cases hti : truthyS (some dep.version) with
    | none =>
      simp only [setLastMinorVersion, truthyS_truthyS, hti, truthyS_none]
    | some iv =>
      have hiv : dep.version = iv := Option.some.inj (truthyS_eq_some _ _ hti)
      rw [hiv] at h
      have hivt : truthyS (some iv) = some iv := by
        have h2 := truthyS_truthyS (some dep.version)
        rw [hti] at h2
        exact h2
      simp only [setLastMinorVersion, truthyS_truthyS, hti, hivt]
      have hfil : (filterProductionVersions r.versions).filter (fun version =>
          jsEq (jsComp (jsSplit version ".") 0) (jsComp (jsSplit iv ".") 0) &&
            jsGt (jsComp (jsSplit version ".") 1) (jsComp (jsSplit iv ".") 1)) = [] := by
        rw [List.filter_eq_nil_iff]
        intro v hv
        rcases h with h0 | h1
        · simp [h0, jsEq_none_right]
        · simp [h1, jsGt_none_right]
      rw [hfil]
      rfl

/-- C5 witness for the amended theorem. -/
theorem versionSelector_unparseable_amended_witness :
    jsTriple depC5.version = none ∧
      (mkPackageInfo (some depC5) (some regC5)).versionLastPatch = none :=
  ⟨by decide, (versionSelector_unparseable_amended depC5 regC5).1 (by decide)⟩

/-! ## C4: update classifier -/

/-- C4 counterexample: an installed version that is present but not numeric is
not left undefined as the claim states — for this input, whose three
components are all NaN, every equality comparison fails and the `else`
branch assigns `major`. -/
theorem setPackageStatus_nonnumeric_cex :
    jsTriple "abc" = none ∧
      setPackageStatus (some "abc") (some "1.0.0") = some PackageStatus.major := by
  exact ⟨by decide, by decide⟩

/-- C4 (amended): `updateStatus` is undefined exactly when the installed or
latest version is missing (absent or empty) — in particular it never defaults
to `upToDate` — and whenever both are present it is assigned one of the four
statuses, even when a version is non-numeric (the NaN-affected comparisons
fail and the cascade still picks a branch); when both parse as numeric
triples it is exactly the spec classification. -/
theorem setPackageStatus_undefined_iff_missing :
    (∀ versionInstalled versionLast : Option String,
      setPackageStatus versionInstalled versionLast = none ↔
        (truthyS versionInstalled = none ∨ truthyS versionLast = none)) ∧
    (∀ installed latest : String, ∀ it lt : Nat × Nat × Nat,
      jsTriple installed = some it → jsTriple latest = some lt →
      setPackageStatus (some installed) (some latest) = some (classifyUpdate it lt)) := by
  constructor
  · intro i l
    unfold setPackageStatus
    cases hi : truthyS i <;> cases hl : truthyS l <;> simp only []
    · simp
    · simp
    · simp
    · constructor
      · intro h
        repeat' split at h
        all_goals exact Option.noConfusion h
      · intro h
        rcases h with h | h <;> exact Option.noConfusion h
  · intro installed latest it lt hit hlt
    obtain ⟨a, b, c⟩ := it
    obtain ⟨d, e, f⟩ := lt
    obtain ⟨h0i, h1i, h2i⟩ := jsTriple_comp _ _ _ _ hit
    obtain ⟨h0l, h1l, h2l⟩ := jsTriple_comp _ _ _ _ hlt
    have hne_i := data_ne_nil_of_jsTriple _ _ hit
    have hne_l := data_ne_nil_of_jsTriple _ _ hlt
    unfold setPackageStatus
    rw [truthyS_some_of_ne _ hne_i, truthyS_some_of_ne _ hne_l]
    simp only [h0i, h1i, h2i, h0l, h1l, h2l, jsEq, classifyUpdate, Prod.mk.injEq]
    by_cases hab : a = d <;> by_cases hbc : b = e <;> by_cases hcd : c = f <;>
      simp [hab, hbc, hcd]

/-- C4 witness for the amended theorem: concrete classifications. -/
theorem setPackageStatus_undefined_iff_missing_witness :
    (jsTriple "1.2.3" = some (1, 2, 3) ∧ jsTriple "1.3.0" = some (1, 3, 0)) ∧
      setPackageStatus (some "1.2.3") (some "1.3.0") = some (classifyUpdate (1, 2, 3) (1, 3, 0)) :=
  ⟨⟨by decide, by decide⟩,
    setPackageStatus_undefined_iff_missing.2 "1.2.3" "1.3.0" (1, 2, 3) (1, 3, 0)
      (by decide) (by decide)⟩

/-! ## C7: prefix preservation in the historical planner -/

/-- C7: the emitted new version string keeps the `^`/`~`/empty prefix of
`versionRequired`, and every non-semver requirement (starting with `http`,
`git`, `file:`, `npm:`, or containing `:` or `/`) yields the plain target
version. -/
theorem newVersionString_prefix_preservation :
    UpdateServiceHist.newVersionString "^1.2.3" "1.5.0" = "^1.5.0" ∧
    UpdateServiceHist.newVersionString "~1.2.3" "1.5.0" = "~1.5.0" ∧
    UpdateServiceHist.newVersionString "1.2.3" "1.5.0" = "1.5.0" ∧
    (∀ versionRequired targetVersion : String,
      (jsStartsWith versionRequired "http" = true ∨
       jsStartsWith versionRequired "git" = true ∨
       jsStartsWith versionRequired "file:" = true ∨
       jsStartsWith versionRequired "npm:" = true ∨
       jsIncludes versionRequired ":" = true ∨
       jsIncludes versionRequired "/" = true) →
      UpdateServiceHist.newVersionString versionRequired targetVersion = targetVersion) := by
  refine ⟨by decide, by decide, by decide, ?_⟩
  intro vr t h
  unfold UpdateServiceHist.newVersionString UpdateServiceHist.getVersionPrefix
  have hcond : (jsStartsWith vr "http" || jsStartsWith vr "git" ||
      jsStartsWith vr "file:" || jsStartsWith vr "npm:" ||
      jsIncludes vr ":" || jsIncludes vr "/") = true := by
    rcases h with h | h | h | h | h | h <;> simp [h]
  rw [if_pos hcond]
  exact String.ext (by simp)

/-- C7 witness: a `file:` requirement gets no prefix. -/
theorem newVersionString_prefix_preservation_witness :
    (jsStartsWith "file:../local" "file:" = true) ∧
      UpdateServiceHist.newVersionString "file:../local" "1.5.0" = "1.5.0" :=
  ⟨by decide,
    newVersionString_prefix_preservation.2.2.2 "file:../local" "1.5.0"
      (Or.inr (Or.inr (Or.inl (by decide))))⟩

/-! ## C8: latest only serialized when it differs -/

/-- C8: in every serialized view, `versionLast` is included only if its
version differs from the installed version and from the last-minor version
(the source additionally requires it to differ from the last-patch version;
that only strengthens the "only if").  The hypothesis that a present
`versionLast` has a non-empty version string is an invariant of the
constructor, which only stores truthy version strings. -/
theorem getInfo_latest_only_if_differs (st : PackageInfoState)
    (h : ∀ x, st.versionLast = some x → x.version.data ≠ []) :
    ∀ vl, (getInfo st).versionLast = some vl →
      ((∀ vi, st.versionInstalled = some vi → vi.version ≠ vl.version) ∧
       (∀ vm, st.versionLastMinor = some vm → vm.version ≠ vl.version)) := by
  intro vl hvl
  simp only [getInfo] at hvl
  split at hvl
  case isFalse => exact Option.noConfusion hvl
  case isTrue hcond =>
    simp only [Bool.and_eq_true, Bool.not_eq_true'] at hcond
    obtain ⟨⟨hsame, hminor⟩, _hpatch⟩ := hcond
    have hlast : st.versionLast = some vl := hvl
    have hvlne : vl.version.data ≠ [] := h vl hlast
    constructor
    · intro vi hvi heq
      rw [hvi, hlast] at hsame
      simp only [List.isEmpty_iff, heq] at hsame
      simp [hvlne] at hsame
    · intro vm hvm heq
      rw [hvm, hlast] at hminor
      simp only [List.isEmpty_iff, heq] at hminor
      simp [hvlne] at hminor

/-- C8 witness. -/
theorem getInfo_latest_only_if_differs_witness :
    (getInfo stC8).versionLast = some { version := "2.0.0", deprecated := none } ∧
      ("1.0.0" : String) ≠ "2.0.0" := by
  refine ⟨by decide, ?_⟩
  have h := getInfo_latest_only_if_differs stC8 (by decide)
    { version := "2.0.0", deprecated := none } (by decide)
  exact h.1 { version := "1.0.0", deprecated := none } (by decide)

/-! ## C6: bounded-concurrency chunk processing -/

theorem chunksOf_length_le {α : Type} : ∀ (n : Nat) (l : List α),
    ∀ c ∈ chunksOf n l, c.length ≤ n
  | _, [] => by simp [chunksOf]
  | 0, x :: xs => by simp [chunksOf]
  | Nat.succ m, x :: xs => by
    intro c hc
    rw [chunksOf] at hc
    rcases List.mem_cons.mp hc with rfl | hc'
    · simp [List.length_take]
    · exact chunksOf_length_le (Nat.succ m) ((x :: xs).drop (Nat.succ m)) c hc'
termination_by _ l => l.length
decreasing_by
  simp only [List.drop_succ_cons, List.length_cons, List.length_drop]
  omega

theorem chunksOf_flatten {α : Type} : ∀ (n : Nat), 0 < n → ∀ (l : List α),
    (chunksOf n l).flatten = l
  | _, _, [] => by simp [chunksOf]
  | 0, hn, x :: xs => absurd hn (by omega)
  | Nat.succ m, hn, x :: xs => by
    rw [chunksOf, List.flatten_cons,
      chunksOf_flatten (Nat.succ m) hn ((x :: xs).drop (Nat.succ m))]
    exact List.take_append_drop _ _
termination_by n _ l => l.length
decreasing_by
  simp only [List.drop_succ_cons, List.length_cons, List.length_drop]
  omega

/-- C6: for a positive window size, the issued chunks each hold at most
`limit` items, they are exactly the input (with its indices) in order — chunk
k+1 follows chunk k, which the sequential model computes to completion
first — and the output is the callback applied to each item with its index,
in input order. -/
theorem processInChunks_spec {α β : Type} (data : List α) (callback : α → Nat → β)
    (limit : Nat) (h : 0 < limit) :
    (∀ c ∈ chunksOf limit data.enum, c.length ≤ limit) ∧
    (chunksOf limit data.enum).flatten = data.enum ∧
    processInChunks data callback limit = data.enum.map (fun p => callback p.2 p.1) := by
  refine ⟨chunksOf_length_le limit data.enum, chunksOf_flatten limit h data.enum, ?_⟩
  unfold processInChunks
  by_cases hd : data.isEmpty
  · have hnil : data = [] := List.isEmpty_iff.mp hd
    subst hnil
    simp [chunksOf]
  · rw [if_neg hd, ← List.map_flatten, chunksOf_flatten limit h data.enum]

/-- C6 witness at window size 2 over three items. -/
theorem processInChunks_spec_witness :
    0 < 2 ∧ processInChunks [10, 20, 30] (fun x i => (i, x)) 2 =
      [10, 20, 30].enum.map (fun p => (p.1, p.2)) :=
  ⟨by decide, (processInChunks_spec [10, 20, 30] (fun x i => (i, x)) 2 (by decide)).2.2⟩

/-! ## C9: npm alias resolution -/

theorem npm_prefix_excludes_others (s : String) (h : jsStartsWith s "npm:" = true) :
    jsStartsWith s "https://" = false ∧ jsStartsWith s "http://" = false ∧
      jsStartsWith s "git+" = false ∧ jsStartsWith s "file:" = false := by
  unfold jsStartsWith at h ⊢
  cases hd : s.data with
  | nil => rw [hd] at h; simp [List.isPrefixOf] at h
  | cons c cs =>
    rw [hd] at h
    rw [show ("npm:" : String).data = ['n', 'p', 'm', ':'] from rfl] at h
    simp only [List.isPrefixOf, Bool.and_eq_true, beq_iff_eq] at h
    obtain ⟨hc, _⟩ := h
    subst hc
    refine ⟨?_, ?_, ?_, ?_⟩ <;> simp [List.isPrefixOf]

/-- C9 counterexample: a scoped alias target (`npm:@scope/pkg@1.0.0`) splits
at its first `@`, so the classifier returns the bare registry base with an
empty package name rather than the base joined with `@scope/pkg`. -/
theorem setRegistrySource_scoped_alias_cex :
    setRegistrySource (some "npm:@scope/pkg@1.0.0") = some "https://registry.npmjs.org/" ∧
      setRegistrySource (some "npm:@scope/pkg@1.0.0") ≠
        some ("https://" ++ NPM_REGISTRY_HOST ++ "/@scope/pkg") :=
  ⟨by decide, by decide⟩

/-- C9 (amended): for a resolved location `npm:` ++ target that does not parse
as an npm-registry URL, the classifier returns the registry base joined with
the portion of the alias target preceding its first `@` (for unscoped targets
this strips an `@version` suffix; a scoped target beginning with `@` yields
an empty name). -/
theorem setRegistrySource_alias (t : String)
    (h : isNpmRegistryUrl (some ("npm:" ++ t)) = false) :
    setRegistrySource (some ("npm:" ++ t)) =
      some ("https://" ++ NPM_REGISTRY_HOST ++ "/" ++ (jsSplit t "@").headD "") := by
  have hdata : ("npm:" ++ t).data = 'n' :: 'p' :: 'm' :: ':' :: t.data := by
    cases t
    rfl
  have hne : ("npm:" ++ t).data ≠ [] := by
    rw [hdata]
    exact List.noConfusion
  have hnpm : jsStartsWith ("npm:" ++ t) "npm:" = true := by
    unfold jsStartsWith
    rw [hdata]
    simp [List.isPrefixOf]
  obtain ⟨hhttps, hhttp, hgit, hfile⟩ := npm_prefix_excludes_others _ hnpm
  have hdrop : String.mk (("npm:" ++ t).data.drop 4) = t := by
    rw [hdata]
    cases t
    rfl
  simp only [setRegistrySource, truthyS_some_of_ne _ hne, h, hhttps, hhttp, hgit, hfile,
    hnpm, Bool.false_or, Bool.or_self, if_false, if_true, hdrop]
  simp

/-- C9 witness for the amended theorem: an unscoped alias with a version
suffix. -/
theorem setRegistrySource_alias_witness :
    isNpmRegistryUrl (some ("npm:" ++ "lodash@4.17.21")) = false ∧
      setRegistrySource (some ("npm:" ++ "lodash@4.17.21")) =
        some ("https://" ++ NPM_REGISTRY_HOST ++ "/" ++ (jsSplit "lodash@4.17.21" "@").headD "") :=
  ⟨by decide, setRegistrySource_alias "lodash@4.17.21" (by decide)⟩

/-! ## C3: target version per update level -/

/-- C3: the planner's emitted updates are exactly the updatable records,
each paired with the level's target version — `latest` with fallback to
`lastMinor` then `lastPatch`, `minor` with fallback to `lastPatch`, `patch`
from `lastPatch` only — and skipped when that target is absent.  The
hypothesis that stored version strings are non-empty is an invariant of the
aggregator, which only stores truthy version strings. -/
theorem prepareUpdates_target_rule (updateLevel : UpdateLevel)
    (packageInfoList : List PackageSpec)
    (hne : ∀ p ∈ packageInfoList,
      (p.versionLast.all fun v => !v.version.data.isEmpty) = true ∧
      (p.versionLastMinor.all fun v => !v.version.data.isEmpty) = true ∧
      (p.versionLastPatch.all fun v => !v.version.data.isEmpty) = true) :
    UpdateService.prepareUpdates updateLevel packageInfoList =
      (UpdateService.getUpdatablePackages packageInfoList).filterMap (fun p =>
        (targetVersionSpec updateLevel p).map (fun tv =>
          { packageName := p.packageName
            dependencyType := p.dependencyType
            currentVersion := p.versionRequired
            newVersion := UpdateService.getVersionPrefix p.versionRequired ++ tv
            updateType := p.updateStatus.getD PackageStatus.patch })) := by
  unfold UpdateService.prepareUpdates
  apply List.filterMap_congr
  intro p hp
  have hpl : p ∈ packageInfoList := List.mem_of_mem_filter hp
  obtain ⟨hl, hm, hpp⟩ := hne p hpl
  cases updateLevel with
  | latest =>
    cases hvl : p.versionLast with
    | some v =>
      rw [hvl] at hl
      simp only [Option.all] at hl
      have hv : v.version.data ≠ [] := by simpa [List.isEmpty_iff] using hl
      simp [targetVersionSpec, hvl, jsOrS, truthyS_some_of_ne _ hv]
    | none =>
      cases hvm : p.versionLastMinor with
      | some v =>
        rw [hvm] at hm
        simp only [Option.all] at hm
        have hv : v.version.data ≠ [] := by simpa [List.isEmpty_iff] using hm
        simp [targetVersionSpec, hvl, hvm, jsOrS, truthyS_some_of_ne _ hv, truthyS_none]
      | none =>
        cases hvp : p.versionLastPatch with
        | some v =>
          rw [hvp] at hpp
          simp only [Option.all] at hpp
          have hv : v.version.data ≠ [] := by simpa [List.isEmpty_iff] using hpp
          simp [targetVersionSpec, hvl, hvm, hvp, jsOrS, truthyS_some_of_ne _ hv, truthyS_none]
        | none =>
          simp [targetVersionSpec, hvl, hvm, hvp, jsOrS, truthyS_none]
  | minor =>
    cases hvm : p.versionLastMinor with
    | some v =>
      rw [hvm] at hm
      simp only [Option.all] at hm
      have hv : v.version.data ≠ [] := by simpa [List.isEmpty_iff] using hm
      simp [targetVersionSpec, hvm, jsOrS, truthyS_some_of_ne _ hv]
    | none =>
      cases hvp : p.versionLastPatch with
      | some v =>
        rw [hvp] at hpp
        simp only [Option.all] at hpp
        have hv : v.version.data ≠ [] := by simpa [List.isEmpty_iff] using hpp
        simp [targetVersionSpec, hvm, hvp, jsOrS, truthyS_some_of_ne _ hv, truthyS_none]
      | none =>
        simp [targetVersionSpec, hvm, hvp, jsOrS, truthyS_none]
  | patch =>
    cases hvp : p.versionLastPatch with
    | some v =>
      rw [hvp] at hpp
      simp only [Option.all] at hpp
      have hv : v.version.data ≠ [] := by simpa [List.isEmpty_iff] using hpp
      simp [targetVersionSpec, hvp, truthyS_some_of_ne _ hv]
    | none =>
      simp [targetVersionSpec, hvp, truthyS_none]

/-- C3 witness: with no `latest` stored, the `latest` level falls back to the
last-minor version. -/
theorem prepareUpdates_target_rule_witness :
    (∀ p ∈ [pkgC3],
      (p.versionLast.all fun v => !v.version.data.isEmpty) = true ∧
      (p.versionLastMinor.all fun v => !v.version.data.isEmpty) = true ∧
      (p.versionLastPatch.all fun v => !v.version.data.isEmpty) = true) ∧
    UpdateService.prepareUpdates UpdateLevel.latest [pkgC3] =
      (UpdateService.getUpdatablePackages [pkgC3]).filterMap (fun p =>
        (targetVersionSpec UpdateLevel.latest p).map (fun tv =>
          { packageName := p.packageName
            dependencyType := p.dependencyType
            currentVersion := p.versionRequired
            newVersion := UpdateService.getVersionPrefix p.versionRequired ++ tv
            updateType := p.updateStatus.getD PackageStatus.patch })) :=
  ⟨by decide, prepareUpdates_target_rule UpdateLevel.latest [pkgC3] (by decide)⟩

/-! ## C10: dry-run leaves the manifest untouched -/

/-- C10: with `dryRun = true`, `applyUpdates` returns the number of updates
and performs no manifest read or write: the file state is returned unchanged
and the event trace is empty. -/
theorem applyUpdates_dryRun (updates : List PackageUpdateInfo)
    (file : Option UpdateService.ManifestFile) :
    UpdateService.applyUpdates updates true file = (updates.length, file, []) := by
  rfl

end CheckMyDeps
